import Mathlib

/-!
# Verification of the loopi workflow graph engine

Shallow embedding of the automation graph executor (`src/main/graphExecutor.ts`),
the headless browser executor and desktop scheduler (`headlessExecutor.ts`,
`desktopScheduler.ts`), and the conditional-evaluation logic, together with
proofs about start-node resolution, conditional branching, the iteration cap,
resource cleanup and schedule firing.

Conventions of the embedding:
* JavaScript exceptions are modelled with `Except`; an engine-raised error is a
  constructor of `Err`, while errors raised by external collaborators
  (step executors, conditional evaluators) travel through the
  `Err.external` channel, since collaborators throw their own `Error` objects.
* The mutual recursion of the traversal closure is bounded by an explicit
  `fuel` argument; `Err.outOfFuel` is an artifact of the embedding and is
  proved unreachable for the canonical fuel (the source recursion is bounded
  by the 10 000-iteration counter, which is part of the state).
* JavaScript `Set<string>` insertion is modelled by `addVisited`
  (append if absent), and `Map` by association lists keyed on strings.
-/

namespace Loopi

/-- Decidable equality for `Except`, so runs on concrete graphs can be
checked by `decide`. -/
instance {ε α : Type _} [DecidableEq ε] [DecidableEq α] : DecidableEq (Except ε α) :=
  fun x y =>
    match x, y with
    | .ok a, .ok b =>
      if h : a = b then .isTrue (by rw [h]) else .isFalse (by simp [h])
    | .error a, .error b =>
      if h : a = b then .isTrue (by rw [h]) else .isFalse (by simp [h])
    | .ok _, .error _ => .isFalse (by simp)
    | .error _, .ok _ => .isFalse (by simp)

/-- Error channel. Engine errors mirror the `throw new Error(...)` sites of the
source; `external` carries errors raised by collaborator callbacks. -/
inductive Err where
  | outOfFuel
  | iterationLimit
  | noStartNodes
  | noNodes
  | browserCondConfig
  | variableCondConfig
  | windowManagerRequired
  | browserWindowRequired
  | launchFailed
  | external (msg : String)
deriving DecidableEq, Repr

/-- The step descriptor fields read by the traversal engine
(`node.data.step` in `graphExecutor.ts`). -/
structure Step where
  type : String
  browserConditionType : Option String := none
  selector : Option String := none
  variableConditionType : Option String := none
  variableName : Option String := none
deriving DecidableEq, Repr

/-- `node.data`: the optional step and the optional explicit-start marker. -/
structure NodeData where
  step : Option Step := none
  isStart : Option Bool := none
deriving DecidableEq, Repr

/-- A flow node. `type` is the node-level type tag used by the scheduler's
traversal (`node.type === "conditional"`). -/
structure Node where
  id : String
  type : Option String := none
  data : NodeData := {}
deriving DecidableEq, Repr

/-- A flow edge. `sourceHandle` is `some "if"` / `some "else"` on conditional
branches and `none` when unset. -/
structure Edge where
  source : String
  target : String
  sourceHandle : Option String := none
deriving DecidableEq, Repr

/-- JavaScript string truthiness of an optional string field
(`undefined` and `""` are falsy). -/
def truthy (o : Option String) : Bool :=
  o.getD "" != ""

/-- Node-status events emitted through the `onNodeStatus` callback. -/
inductive NodeStatus where
  | running
  | success
  | error
deriving DecidableEq, Repr

/-- Traversal state of one run of `executeBrowserGraph`: the shared `visited`
set, the shared iteration counter, and the sequence of `onNodeStatus` events. -/
structure St where
  visited : List String := []
  count : Nat := 0
  events : List (String × NodeStatus) := []
deriving DecidableEq, Repr

/-- `Set.add`: append if not already present (JS `Set` keeps first insertion). -/
def addVisited (v : List String) (x : String) : List String :=
  if v.contains x then v else v ++ [x]

/-- Record one `onNodeStatus` call. -/
def pushEvent (s : St) (nodeId : String) (st : NodeStatus) : St :=
  { s with events := s.events ++ [(nodeId, st)] }

/-- Result of a traversal: on an exception the state at throw time is kept
(the `onNodeStatus` side effects that already happened). -/
abbrev ExecResult := Except (Err × St) St

/-- The collaborator surface used by `executeBrowserGraph`
(`executor.evaluateBrowserConditional`, `executor.evaluateVariableConditional`,
`executor.executeStep`); collaborators may throw their own errors. -/
structure Executor where
  evalBrowserConditional : Step → Except String Bool
  evalVariableConditional : Step → Except String Bool
  executeStep : Step → Except String Unit

/-- Node evaluation, `graphExecutor.ts` lines 115-155: browser conditionals and
variable conditionals produce a `conditionResult`; plain steps produce none;
missing configuration throws. -/
def evalNode (ex : Executor) (node : Node) : Except Err (Option Bool) :=
  match node.data.step with
  | some st =>
    if st.type == "browserConditional" then
      if truthy st.browserConditionType && truthy st.selector then
        match ex.evalBrowserConditional st with
        | .ok b => .ok (some b)
        | .error m => .error (.external m)
      else .error .browserCondConfig
    else if st.type == "variableConditional" then
      if truthy st.variableConditionType && truthy st.variableName then
        match ex.evalVariableConditional st with
        | .ok b => .ok (some b)
        | .error m => .error (.external m)
      else .error .variableCondConfig
    else
      match ex.executeStep st with
      | .ok _ => .ok none
      | .error m => .error (.external m)
  | none => .ok none

/-- `graphExecutor.ts` lines 160-162: a node is conditional when its step type
is `browserConditional` or `variableConditional`. -/
def isConditionalNode (node : Node) : Bool :=
  match node.data.step with
  | some st => st.type == "browserConditional" || st.type == "variableConditional"
  | none => false

/-- `graphExecutor.ts` lines 164-172: next-node selection. When the node is
conditional and a condition result is defined, only the edges whose
`sourceHandle` matches the branch are followed; otherwise all outgoing edges. -/
def nextNodeIds (edges : List Edge) (nodeId : String) (isCond : Bool)
    (condRes : Option Bool) : List String :=
  match isCond, condRes with
  | true, some r =>
    (edges.filter fun e =>
      e.source == nodeId && e.sourceHandle == some (if r then "if" else "else")).map
      (·.target)
  | _, _ => (edges.filter fun e => e.source == nodeId).map (·.target)

/-- `nodes.find((n) => n.id === nodeId)`. -/
def findNode (nodes : List Node) (nodeId : String) : Option Node :=
  nodes.find? fun n => n.id == nodeId

/-- The recursive `executeGraph` closure of `executeBrowserGraph`
(`graphExecutor.ts` lines 102-181): iteration check and increment, visited
marking, node lookup, status events, node evaluation, then sequential
recursion into the selected next nodes (the fold over the next-node list is
the `for (const nextNodeId of nextNodes)` loop, with a thrown error
short-circuiting the rest); the surrounding `try/catch` re-emits an error
status for the node and rethrows. `fuel` bounds the embedding's recursion and
is proved unreachable for the canonical value. -/
def executeGraph (ex : Executor) (nodes : List Node) (edges : List Edge) :
    Nat → String → St → ExecResult
  | 0, _, s => .error (.outOfFuel, s)
  | fuel + 1, nodeId, s =>
    if s.count > 10000 then .error (.iterationLimit, s)
    else
      let s1 : St :=
        { visited := addVisited s.visited nodeId, count := s.count + 1, events := s.events }
      match findNode nodes nodeId with
      | none => .ok s1
      | some node =>
        let s2 := pushEvent s1 nodeId .running
        match evalNode ex node with
        | .error e => .error (e, pushEvent s2 nodeId .error)
        | .ok condRes =>
          let s3 := pushEvent s2 nodeId .success
          let nexts := nextNodeIds edges nodeId (isConditionalNode node) condRes
          match
            nexts.foldl
              (fun (acc : ExecResult) n =>
                match acc with
                | .error es => .error es
                | .ok st => executeGraph ex nodes edges fuel n st)
              (.ok s3) with
          | .ok s4 => .ok s4
          | .error (e, s4) => .error (e, pushEvent s4 nodeId .error)

/-- The `for (const nextNodeId of nextNodes)` loop of `executeGraph`, as a
standalone function (definitionally the fold inside `executeGraph`); also the
top-level `for (const startNode of startNodes)` loop. -/
def execList (ex : Executor) (nodes : List Node) (edges : List Edge)
    (fuel : Nat) (ids : List String) (s : St) : ExecResult :=
  ids.foldl
    (fun acc n =>
      match acc with
      | .error es => .error es
      | .ok st => executeGraph ex nodes edges fuel n st)
    (.ok s)

/-- `findStartNodes` edge validity (`graphExecutor.ts` lines 209-215):
both endpoints truthy and naming existing nodes. -/
def validEdge (nodeIds : List String) (e : Edge) : Bool :=
  e.source != "" && e.target != "" && nodeIds.contains e.source && nodeIds.contains e.target

/-- The indegree a string id receives from a list of edges. -/
def indegreeFrom (edges : List Edge) (id : String) : Nat :=
  (edges.filter fun e => e.target == id).length

/-- `findStartNodes` (`graphExecutor.ts` lines 205-235): filter invalid edges,
compute indegree from the valid ones, select the zero-indegree nodes, and
throw when that set is empty. -/
def findStartNodes (nodes : List Node) (edges : List Edge) : Except Err (List Node) :=
  let nodeIds := nodes.map (·.id)
  let validEdges := edges.filter (validEdge nodeIds)
  let starts := nodes.filter fun n => indegreeFrom validEdges n.id == 0
  if starts.isEmpty then .error .noStartNodes else .ok starts

/-- Canonical fuel: the iteration counter throws strictly before `10002`
nested visits can be attempted from a fresh state. -/
def canonicalFuel : Nat := 10002

/-- The traversal part of `executeBrowserGraph` (`graphExecutor.ts` lines
183-192): resolve start nodes, then run every start node sequentially against
one shared state. -/
def runTraversal (ex : Executor) (nodes : List Node) (edges : List Edge) : ExecResult :=
  match findStartNodes nodes edges with
  | .error e => .error (e, {})
  | .ok starts => execList ex nodes edges canonicalFuel (starts.map (·.id)) {}

/-! ## The scheduler's traversal engine (`DesktopScheduler.executeWorkflowGraph`) -/

/-- Traversal state of one `executeWorkflowGraph` run: the `visited` set, the
iteration counter, and the `stepResults` array threaded by reference. -/
structure SSt where
  visited : List String := []
  count : Nat := 0
  stepResults : List Bool := []
deriving DecidableEq, Repr

/-- Result of a scheduler traversal. -/
abbrev SExecResult := Except (Err × SSt) SSt

/-- Collaborator surface used by `executeWorkflowGraph`: availability of the
window manager and of its browser window, the conditional evaluator, and the
step executor (`this.executor` / `this.windowManager`). -/
structure SchedulerExec where
  windowManager : Bool
  browserWindow : Bool
  evaluateConditional : Node → Except String Bool
  executeStep : Step → Except String Unit

/-- Append one `stepResults.push({success})`. -/
def pushResult (s : SSt) (ok : Bool) : SSt :=
  { s with stepResults := s.stepResults ++ [ok] }

/-- The recursive `executeGraph` closure of
`DesktopScheduler.executeWorkflowGraph` (`desktopScheduler.ts`): iteration
check, visited marking, node lookup, conditional evaluation guarded by the
window manager, step execution with a success/failure entry pushed to
`stepResults`, then sequential recursion into the selected next nodes (the
fold is the `for` loop with thrown errors short-circuiting). The scheduler
variant detects conditionals by `node.type === "conditional"` and has no
per-node `try/catch` around its recursion. -/
def schedExecGraph (ex : SchedulerExec) (nodes : List Node) (edges : List Edge) :
    Nat → String → SSt → SExecResult
  | 0, _, s => .error (.outOfFuel, s)
  | fuel + 1, nodeId, s =>
    if s.count > 10000 then .error (.iterationLimit, s)
    else
      let s1 : SSt :=
        { visited := addVisited s.visited nodeId, count := s.count + 1,
          stepResults := s.stepResults }
      match findNode nodes nodeId with
      | none => .ok s1
      | some node =>
        let isCond := node.type == some "conditional"
        let step1 : Except (Err × SSt) (Option Bool × SSt) :=
          if isCond then
            if !ex.windowManager then .error (.windowManagerRequired, s1)
            else if !ex.browserWindow then .error (.browserWindowRequired, s1)
            else
              match ex.evaluateConditional node with
              | .error m => .error (.external m, s1)
              | .ok b => .ok (some b, pushResult s1 true)
          else
            match node.data.step with
            | some st =>
              match ex.executeStep st with
              | .error m => .error (.external m, pushResult s1 false)
              | .ok _ => .ok (none, pushResult s1 true)
            | none => .ok (none, s1)
        match step1 with
        | .error es => .error es
        | .ok (condRes, s2) =>
          let nexts := nextNodeIds edges nodeId isCond condRes
          nexts.foldl
            (fun (acc : SExecResult) n =>
              match acc with
              | .error es => .error es
              | .ok st => schedExecGraph ex nodes edges fuel n st)
            (.ok s2)

/-- The scheduler's `for (const nextNodeId of nextNodes)` and
`for (const startNode of ...)` loops, as a standalone function. -/
def schedExecList (ex : SchedulerExec) (nodes : List Node) (edges : List Edge)
    (fuel : Nat) (ids : List String) (s : SSt) : SExecResult :=
  ids.foldl
    (fun acc n =>
      match acc with
      | .error es => .error es
      | .ok st => schedExecGraph ex nodes edges fuel n st)
    (.ok s)

/-- The scheduler's indegree computation: every edge whose target is truthy
and names an existing node counts, regardless of whether the source exists
(`if (t && indegree.has(t))`). -/
def schedIndegreeOf (nodes : List Node) (edges : List Edge) (id : String) : Nat :=
  (edges.filter fun e =>
    e.target != "" && (nodes.map (·.id)).contains e.target && e.target == id).length

/-- `nodes.filter((n) => n.data?.isStart === true)`. -/
def schedExplicitStarts (nodes : List Node) : List Node :=
  nodes.filter fun n => n.data.isStart == some true

/-- Primary start-node selection of the scheduler: explicit starts win;
otherwise the zero-indegree nodes. -/
def schedStartNodes (nodes : List Node) (edges : List Edge) : List Node :=
  let explicit := schedExplicitStarts nodes
  if explicit.length > 0 then explicit
  else nodes.filter fun n => schedIndegreeOf nodes edges n.id == 0

/-- The globally minimal indegree over all nodes (`Infinity` start value is
only reached for an empty node list, where the fallback set is empty anyway). -/
def schedMinIndegree (nodes : List Node) (edges : List Edge) : Nat :=
  ((nodes.map fun n => schedIndegreeOf nodes edges n.id).min?).getD 0

/-- The fallback start set: all nodes sharing the minimal indegree. -/
def schedFallbackStarts (nodes : List Node) (edges : List Edge) : List Node :=
  nodes.filter fun n => schedIndegreeOf nodes edges n.id == schedMinIndegree nodes edges

/-- `DesktopScheduler.executeWorkflowGraph`: empty node list returns quietly;
otherwise traverse from the primary start set, or from the minimal-indegree
fallback set when the primary set is empty (a warning is logged). -/
def executeWorkflowGraph (ex : SchedulerExec) (nodes : List Node) (edges : List Edge) :
    SExecResult :=
  if nodes.isEmpty then .ok {}
  else
    let starts := schedStartNodes nodes edges
    if starts.isEmpty then
      schedExecList ex nodes edges canonicalFuel ((schedFallbackStarts nodes edges).map (·.id)) {}
    else
      schedExecList ex nodes edges canonicalFuel (starts.map (·.id)) {}

/-! ## HeadlessExecutor lifecycle (`headlessExecutor.ts`) -/

/-- The browser/page handles of a `HeadlessExecutor` instance. -/
structure HE where
  browser : Option Unit := none
  page : Option Unit := none
deriving DecidableEq, Repr

/-- `HeadlessExecutor.close` (`headlessExecutor.ts` lines 53-60): only acts
when a browser handle is present, then nulls both handles. -/
def HE.close (h : HE) : HE :=
  if h.browser.isSome then { browser := none, page := none } else h

/-- A freshly constructed executor (`new HeadlessExecutor()`). -/
def HE.fresh : HE := {}

/-- The state after a successful `launch()`: browser and page handles set. -/
def HE.launched : HE := { browser := some (), page := some () }

/-- Ghost-instrumented view of the headless executor owned by one
`executeAutomationGraph` run: the handle (absent when never instantiated),
the number of `close()` invocations, and the number of invocations that
actually closed a live browser. -/
structure HERun where
  he : Option HE := none
  closeCalls : Nat := 0
  effectiveCloses : Nat := 0
deriving DecidableEq, Repr

/-- One `if (headlessExecutor) await headlessExecutor.close()` site: invokes
`close()` when the executor was instantiated, counting the invocation and
whether it actually closed a browser. -/
def HERun.doClose (r : HERun) : HERun :=
  match r.he with
  | none => r
  | some h =>
    { he := some h.close, closeCalls := r.closeCalls + 1,
      effectiveCloses := r.effectiveCloses + (if h.browser.isSome then 1 else 0) }

/-- `graphExecutor.ts` lines 39-53: the step types that require a browser. -/
def browserSteps : List String :=
  ["navigate", "click", "type", "screenshot", "extract", "scroll",
   "selectOption", "fileUpload", "hover", "browserConditional"]

/-- `nodes.some((node) => node.data.step && browserSteps.includes(...))`. -/
def hasBrowserSteps (nodes : List Node) : Bool :=
  nodes.any fun n =>
    match n.data.step with
    | some st => browserSteps.contains st.type
    | none => false

/-- The `finally` block of `executeBrowserGraph` (`graphExecutor.ts` lines
193-199): the run result passes through, closing the headless executor on the
way out if one was instantiated. -/
def executeBrowserGraphHE (r : HERun) (res : ExecResult) : HERun × ExecResult :=
  (r.doClose, res)

/-- `executeAutomationGraph` (`graphExecutor.ts` lines 29-80): empty node list
throws before anything is instantiated; in headless mode with browser steps a
`HeadlessExecutor` is created and launched (a failing `launch()` leaves the
handles null and is caught by the cleanup `catch`); the graph then runs
through `executeBrowserGraph`, whose `finally` closes the executor, and the
outer `catch` closes it again when the run rethrows. `launchOk` models
whether `launch()` succeeds. -/
def executeAutomationGraph (ex : Executor) (nodes : List Node) (edges : List Edge)
    (headless : Bool) (launchOk : Bool) : HERun × Except Err Unit :=
  if nodes.isEmpty then ({}, .error .noNodes)
  else if headless && hasBrowserSteps nodes then
    if launchOk then
      let r0 : HERun := { he := some HE.launched }
      let (r1, res) := executeBrowserGraphHE r0 (runTraversal ex nodes edges)
      match res with
      | .ok _ => (r1, .ok ())
      | .error (e, _) => (r1.doClose, .error e)
    else
      (HERun.doClose { he := some HE.fresh }, .error .launchFailed)
  else
    let (r1, res) := executeBrowserGraphHE {} (runTraversal ex nodes edges)
    match res with
    | .ok _ => (r1, .ok ())
    | .error (e, _) => (r1.doClose, .error e)

/-! ## Conditional value matching (`HeadlessExecutor.evaluateBrowserConditional`,
`valueMatches` branch) -/

/-- The `replace(/[^0-9.-]/g, "")` strip: keep digits, `.` and `-`. -/
def stripNonNumeric (s : String) : String :=
  ⟨s.data.filter fun c => c.isDigit || c == '.' || c == '-'⟩

/-- Numeric value of a digit list (most significant first). -/
def digitsVal (l : List Char) : Nat :=
  l.foldl (fun acc c => acc * 10 + c.toNat - '0'.toNat) 0

/-- JavaScript `parseFloat` on a decimal string literal: skip leading
whitespace, optional sign, integer digits, optional fraction, optional
exponent; `none` models `NaN` (no digits in the longest valid prefix).
The special `Infinity` literal is outside the modelled fragment; all strings
this development feeds to `jsParseFloat` are stripped to `[0-9.-]` first or
compared only through the claims' concrete inputs. -/
def jsParseFloat (s : String) : Option ℚ :=
  let cs := s.data.dropWhile (·.isWhitespace)
  let (sign, cs) : Int × List Char :=
    match cs with
    | '-' :: r => (-1, r)
    | '+' :: r => (1, r)
    | _ => (1, cs)
  let ip := cs.takeWhile (·.isDigit)
  let cs1 := cs.dropWhile (·.isDigit)
  let (fp, cs2) : List Char × List Char :=
    match cs1 with
    | '.' :: r => (r.takeWhile (·.isDigit), r.dropWhile (·.isDigit))
    | _ => ([], cs1)
  if ip.isEmpty && fp.isEmpty then none
  else
    let mantNum : Int :=
      sign * ((digitsVal ip : Int) * (10 : Int) ^ fp.length + (digitsVal fp : Int))
    let expVal : Int :=
      match cs2 with
      | 'e' :: r | 'E' :: r =>
        let (esign, r') : Int × List Char :=
          match r with
          | '-' :: r' => (-1, r')
          | '+' :: r' => (1, r')
          | _ => (1, r)
        let ed := r'.takeWhile (·.isDigit)
        if ed.isEmpty then 0 else esign * (digitsVal ed : Int)
      | _ => 0
    some
      (if 0 ≤ expVal then
        mkRat (mantNum * (10 : Int) ^ expVal.toNat) ((10 : Nat) ^ fp.length)
      else
        mkRat mantNum ((10 : Nat) ^ fp.length * (10 : Nat) ^ (-expVal).toNat))

/-- JavaScript `String.prototype.includes`: substring containment. -/
def strIncludes (s sub : String) : Bool :=
  go s.data sub.data
where
  go : List Char → List Char → Bool
  | l, sub =>
    sub.isPrefixOf l ||
      match l with
      | [] => false
      | _ :: t => go t sub

/-- The `valueMatches` comparison (`headlessExecutor.ts` lines 332-358),
taking the already-transformed element text and the expected value. With
`parseAsNumber`, both sides are stripped and parsed and the whole operator
chain — including `contains` — sits behind `!isNaN(a) && !isNaN(b)`; without
it, `contains` is string containment, `greaterThan`/`lessThan` compare raw
`parseFloat` results (`NaN` comparisons are false), and everything else is
string equality. -/
def valueMatches (parseAsNumber : Bool) (op : String) (transformed expected : String) :
    Bool :=
  if parseAsNumber then
    match jsParseFloat (stripNonNumeric transformed),
        jsParseFloat (stripNonNumeric expected) with
    | some a, some b =>
      if op == "greaterThan" then a > b
      else if op == "lessThan" then a < b
      else if op == "contains" then strIncludes transformed expected
      else a == b
    | _, _ => false
  else
    if op == "contains" then strIncludes transformed expected
    else if op == "greaterThan" then
      match jsParseFloat transformed, jsParseFloat expected with
      | some a, some b => a > b
      | _, _ => false
    else if op == "lessThan" then
      match jsParseFloat transformed, jsParseFloat expected with
      | some a, some b => a < b
      | _, _ => false
    else transformed == expected

/-! ## Scheduler task management (`DesktopScheduler`) -/

/-- The tagged schedule union. `once.datetime` is the epoch timestamp that
`new Date(schedule.datetime).getTime()` yields. -/
inductive Schedule where
  | manual
  | interval (intervalMinutes : Nat)
  | cron (expression : String)
  | once (datetime : Int)
deriving DecidableEq, Repr

/-- The fields of a `StoredAutomation` the scheduler reads. `enabled` is
optional; the task copy defaults it to true (`automation.enabled ?? true`)
while the timer callbacks test the raw field's truthiness. -/
structure Automation where
  id : String
  enabled : Option Bool := none
  schedule : Option Schedule := none
deriving DecidableEq, Repr

/-- What a live timer/cron handle does when it fires. Each callback closes
over the `automation` object captured at install time. -/
inductive TimerAction where
  | noopTimeout
  | intervalTick (a : Automation)
  | cronTick (a : Automation)
  | onceTimeout (a : Automation)
deriving DecidableEq, Repr

/-- A `ScheduledTask` entry of `this.tasks`. -/
structure STask where
  scheduleId : String
  automationId : String
  schedule : Schedule
  cronTask : Option TimerAction := none
  intervalId : Option TimerAction := none
  enabled : Bool
deriving DecidableEq, Repr

/-- Scheduler state: the task map (association list keyed by schedule id) and
the ghost trace of workflow executions started by
`executeScheduledAutomation`, in order. -/
structure Sched where
  tasks : List (String × STask) := []
  firings : List String := []
deriving DecidableEq, Repr

/-- `Map.get`. -/
def mapGet (m : List (String × STask)) (k : String) : Option STask :=
  (m.find? fun p => p.1 == k).map (·.2)

/-- `Map.set`: replace in place or append. -/
def mapSet (m : List (String × STask)) (k : String) (v : STask) : List (String × STask) :=
  if m.any fun p => p.1 == k then m.map fun p => if p.1 == k then (k, v) else p
  else m ++ [(k, v)]

/-- `Map.delete`. -/
def mapDel (m : List (String × STask)) (k : String) : List (String × STask) :=
  m.filter fun p => p.1 != k

/-- `executeScheduledAutomation`: runs the workflow and writes one log entry;
modelled as recording the automation id in the firing trace. -/
def execScheduled (s : Sched) (a : Automation) : Sched :=
  { s with firings := s.firings ++ [a.id] }

/-- `unscheduleAutomation(scheduleId)` (`desktopScheduler.ts`): unknown ids
return false; otherwise the cron handle is stopped, the timer cleared, and
the task removed. -/
def unscheduleAutomation (s : Sched) (scheduleId : String) : Sched × Bool :=
  match mapGet s.tasks scheduleId with
  | none => (s, false)
  | some _ => ({ s with tasks := mapDel s.tasks scheduleId }, true)

/-- `toggleAutomation(scheduleId, enabled)`: flips the task's `enabled` flag
only; the live timer and its captured `automation` object are untouched. -/
def toggleAutomation (s : Sched) (scheduleId : String) (enabled : Bool) : Sched × Bool :=
  match mapGet s.tasks scheduleId with
  | none => (s, false)
  | some t =>
    ({ s with tasks := mapSet s.tasks scheduleId { t with enabled := enabled } }, true)

/-- `scheduleOnce` (`desktopScheduler.ts` lines 528-552): a past `datetime`
executes the automation immediately and installs a no-op timeout; a future
one installs a timeout that checks the captured automation's `enabled`
field, executes, and then unschedules under the automation id. Returns the
state after any immediate execution together with the installed handle. -/
def scheduleOnce (now : Int) (s : Sched) (a : Automation) (datetime : Int) :
    Sched × TimerAction :=
  if datetime - now ≤ 0 then (execScheduled s a, .noopTimeout)
  else (s, .onceTimeout a)

/-- `scheduleAutomation(automation, scheduleId)`: no-ops for missing/manual
schedules; otherwise replaces any prior task under the id, installs the
kind-specific timer (an invalid cron expression yields no handle), and
registers the task. `cronValid` stands for `cron.validate`. -/
def scheduleAutomation (cronValid : String → Bool) (now : Int) (s : Sched)
    (a : Automation) (scheduleId : String) : Sched × Bool :=
  match a.schedule with
  | none => (s, false)
  | some .manual => (s, false)
  | some sch =>
    let s1 := (unscheduleAutomation s scheduleId).1
    let base : STask :=
      { scheduleId := scheduleId, automationId := a.id, schedule := sch,
        enabled := a.enabled.getD true }
    match sch with
    | .manual => (s, false)
    | .interval _ =>
      let task : STask := { base with intervalId := some (.intervalTick a) }
      ({ s1 with tasks := mapSet s1.tasks scheduleId task }, true)
    | .cron expr =>
      let handle := if cronValid expr then some (TimerAction.cronTick a) else none
      let task : STask := { base with cronTask := handle }
      ({ s1 with tasks := mapSet s1.tasks scheduleId task }, true)
    | .once dt =>
      let (s2, handle) := scheduleOnce now s1 a dt
      let task : STask := { base with intervalId := some handle }
      ({ s2 with tasks := mapSet s2.tasks scheduleId task }, true)

/-- Run one timer callback. Interval and cron callbacks execute only when the
captured automation's `enabled` field is truthy; the future-`once` callback
additionally unschedules — under the automation id, as in the source. -/
def runTimerAction (s : Sched) : TimerAction → Sched
  | .noopTimeout => s
  | .intervalTick a => if a.enabled == some true then execScheduled s a else s
  | .cronTick a => if a.enabled == some true then execScheduled s a else s
  | .onceTimeout a =>
    if a.enabled == some true then (unscheduleAutomation (execScheduled s a) a.id).1
    else s

/-- Fire the live handle of the task registered under `scheduleId`, if any:
a timer that was cleared by unscheduling can no longer fire. -/
def fireTimer (s : Sched) (scheduleId : String) : Sched :=
  match mapGet s.tasks scheduleId with
  | none => s
  | some t =>
    match t.intervalId, t.cronTask with
    | some act, _ => runTimerAction s act
    | none, some act => runTimerAction s act
    | none, none => s

/-! ## Spec-side definitions (for refinement comparisons)

These definitions follow the wording of the specification, not the code; the
theorems below compare them with the embedded source functions. -/

/-- All outgoing edges of a node, in edge-list order (spec: "for
non-conditional nodes, follow all outgoing edges unconditionally"). -/
def specAllOutgoing (edges : List Edge) (nodeId : String) : List String :=
  (edges.filter fun e => e.source == nodeId).map (·.target)

/-- Spec §4.1 next-node selection: "if `n` is conditional, follow only edges
whose `sourceHandle` equals `\"if\"` when `conditionResult` is true,
`\"else\"` otherwise; for non-conditional nodes, follow all outgoing edges
unconditionally". -/
def specNextNodes (edges : List Edge) (nodeId : String) (isCond : Bool)
    (condRes : Option Bool) : List String :=
  if isCond then
    match condRes with
    | some true =>
      (edges.filter fun e => e.source == nodeId && e.sourceHandle == some "if").map (·.target)
    | some false =>
      (edges.filter fun e => e.source == nodeId && e.sourceHandle == some "else").map (·.target)
    | none => specAllOutgoing edges nodeId
  else specAllOutgoing edges nodeId

/-- Spec §4.1 step 1: indegree per node computed from valid edges only, an
edge being valid iff both endpoints exist in the node set. -/
def specValidIndegree (nodes : List Node) (edges : List Edge) (id : String) : Nat :=
  (edges.filter fun e =>
    (nodes.map (·.id)).contains e.source && (nodes.map (·.id)).contains e.target &&
      e.target == id).length

/-- The zero-indegree start set of the spec, over valid edges. -/
def specZeroValidStarts (nodes : List Node) (edges : List Edge) : List Node :=
  nodes.filter fun n => specValidIndegree nodes edges n.id == 0

/-- Indegree counting every edge whose target exists, regardless of the
source — what the scheduler actually computes (amended claim C3). -/
def specTargetIndegree (nodes : List Node) (edges : List Edge) (id : String) : Nat :=
  (edges.filter fun e => (nodes.map (·.id)).contains e.target && e.target == id).length

/-! ## Result projections -/

/-- The iteration counter of a traversal result (also on the throw path). -/
def resCount : ExecResult → Nat
  | .ok s => s.count
  | .error (_, s) => s.count

/-- The error of a traversal result, if any. -/
def resErr : ExecResult → Option Err
  | .ok _ => none
  | .error (e, _) => some e

/-- The iteration counter of a scheduler-traversal result. -/
def sResCount : SExecResult → Nat
  | .ok s => s.count
  | .error (_, s) => s.count

/-- The error of a scheduler-traversal result, if any. -/
def sResErr : SExecResult → Option Err
  | .ok _ => none
  | .error (e, _) => some e

/-! ## Concrete fixtures -/

/-- A collaborator whose steps and conditionals all succeed. -/
def trivialExec : Executor :=
  { evalBrowserConditional := fun _ => .ok true,
    evalVariableConditional := fun _ => .ok true,
    executeStep := fun _ => .ok () }

/-- A collaborator whose step execution throws. -/
def failingStepExec : Executor :=
  { evalBrowserConditional := fun _ => .ok true,
    evalVariableConditional := fun _ => .ok true,
    executeStep := fun _ => .error "boom" }

/-- Scheduler collaborator whose steps and conditionals all succeed. -/
def trivialSchedExec : SchedulerExec :=
  { windowManager := true, browserWindow := true,
    evaluateConditional := fun _ => .ok true,
    executeStep := fun _ => .ok () }

/-- A variable-conditional node `C` with `if`/`else` branch targets. -/
def condNodeC : Node :=
  let st : Step :=
    { type := "variableConditional", variableConditionType := some "equals",
      variableName := some "x" }
  { id := "C", data := { step := some st } }

/-- Branch test graph: `C -if→ X`, `C -else→ Y`. -/
def condNodes : List Node := [condNodeC, { id := "X" }, { id := "Y" }]

/-- Edges of the branch test graph, `if` edge first. -/
def condEdges : List Edge :=
  [{ source := "C", target := "X", sourceHandle := some "if" },
   { source := "C", target := "Y", sourceHandle := some "else" }]

/-- A collaborator whose variable conditionals evaluate to false. -/
def falseCondExec : Executor :=
  { evalBrowserConditional := fun _ => .ok false,
    evalVariableConditional := fun _ => .ok false,
    executeStep := fun _ => .ok () }

/-- Two nodes forming the cycle `A → B → A` with no entry point. -/
def cycNodes : List Node := [{ id := "A" }, { id := "B" }]

/-- The two cycle edges. -/
def cycEdges : List Edge :=
  [{ source := "A", target := "B" }, { source := "B", target := "A" }]

/-- Nodes for the explicit-start test: `B` is marked `isStart`. -/
def startNodes3 : List Node :=
  [{ id := "A" }, { id := "B", data := { isStart := some true } }]

/-- Edge `A → B`, giving the `isStart`-marked node indegree 1. -/
def startEdges3 : List Edge := [{ source := "A", target := "B" }]

/-- A single node with an edge to the nonexistent id `Z`. -/
def danglingNodes : List Node := [{ id := "A" }]

/-- The invalid edge `A → Z` (`Z` names no node). -/
def danglingEdges : List Edge := [{ source := "A", target := "Z" }]

/-- A graph with one browser step, for the headless-cleanup runs. -/
def navNodes : List Node :=
  [{ id := "N", data := { step := some { type := "navigate" } } }]

/-- `cron.validate` stand-in accepting every expression. -/
def cronAlwaysValid : String → Bool := fun _ => true

/-- A `once` automation whose datetime (5) is in the past at install time 10. -/
def onceAuto : Automation :=
  { id := "a1", enabled := some true, schedule := some (.once 5) }

/-- An enabled one-minute interval automation. -/
def intervalAuto : Automation :=
  { id := "a2", enabled := some true, schedule := some (.interval 1) }

/-- Scheduler state after installing the interval automation under "s2" and
then toggling that schedule off. -/
def toggledOffState : Sched :=
  (toggleAutomation
    (scheduleAutomation cronAlwaysValid 0 {} intervalAuto "s2").1 "s2" false).1

/-! ## Unfolding equations for the traversal engines -/

theorem execFold_error (ex : Executor) (nodes : List Node) (edges : List Edge)
    (fuel : Nat) (ns : List String) (es : Err × St) :
    ns.foldl
      (fun (acc : ExecResult) n =>
        match acc with
        | .error es => .error es
        | .ok st => executeGraph ex nodes edges fuel n st)
      (.error es) = .error es := by
  induction ns with
  | nil => rfl
  | cons n ns ih => simpa using ih

theorem execList_nil (ex : Executor) (nodes : List Node) (edges : List Edge)
    (fuel : Nat) (s : St) : execList ex nodes edges fuel [] s = .ok s := rfl

theorem execList_cons (ex : Executor) (nodes : List Node) (edges : List Edge)
    (fuel : Nat) (n : String) (ns : List String) (s : St) :
    execList ex nodes edges fuel (n :: ns) s =
      match executeGraph ex nodes edges fuel n s with
      | .error es => .error es
      | .ok s' => execList ex nodes edges fuel ns s' := by
  unfold execList
  rw [List.foldl_cons]
  dsimp only
  cases h : executeGraph ex nodes edges fuel n s with
  | ok s' => rfl
  | error es => exact execFold_error ex nodes edges fuel ns es

theorem executeGraph_zero (ex : Executor) (nodes : List Node) (edges : List Edge)
    (nodeId : String) (s : St) :
    executeGraph ex nodes edges 0 nodeId s = .error (.outOfFuel, s) := rfl

theorem executeGraph_succ (ex : Executor) (nodes : List Node) (edges : List Edge)
    (fuel : Nat) (nodeId : String) (s : St) :
    executeGraph ex nodes edges (fuel + 1) nodeId s =
      if s.count > 10000 then .error (.iterationLimit, s)
      else
        let s1 : St :=
          { visited := addVisited s.visited nodeId, count := s.count + 1, events := s.events }
        match findNode nodes nodeId with
        | none => .ok s1
        | some node =>
          let s2 := pushEvent s1 nodeId .running
          match evalNode ex node with
          | .error e => .error (e, pushEvent s2 nodeId .error)
          | .ok condRes =>
            let s3 := pushEvent s2 nodeId .success
            match
              execList ex nodes edges fuel
                (nextNodeIds edges nodeId (isConditionalNode node) condRes) s3 with
            | .ok s4 => .ok s4
            | .error (e, s4) => .error (e, pushEvent s4 nodeId .error) := rfl

theorem schedFold_error (ex : SchedulerExec) (nodes : List Node) (edges : List Edge)
    (fuel : Nat) (ns : List String) (es : Err × SSt) :
    ns.foldl
      (fun (acc : SExecResult) n =>
        match acc with
        | .error es => .error es
        | .ok st => schedExecGraph ex nodes edges fuel n st)
      (.error es) = .error es := by
  induction ns with
  | nil => rfl
  | cons n ns ih => simpa using ih

theorem schedExecList_nil (ex : SchedulerExec) (nodes : List Node) (edges : List Edge)
    (fuel : Nat) (s : SSt) : schedExecList ex nodes edges fuel [] s = .ok s := rfl

theorem schedExecList_cons (ex : SchedulerExec) (nodes : List Node) (edges : List Edge)
    (fuel : Nat) (n : String) (ns : List String) (s : SSt) :
    schedExecList ex nodes edges fuel (n :: ns) s =
      match schedExecGraph ex nodes edges fuel n s with
      | .error es => .error es
      | .ok s' => schedExecList ex nodes edges fuel ns s' := by
  unfold schedExecList
  rw [List.foldl_cons]
  dsimp only
  cases h : schedExecGraph ex nodes edges fuel n s with
  | ok s' => rfl
  | error es => exact schedFold_error ex nodes edges fuel ns es

theorem schedExecGraph_succ (ex : SchedulerExec) (nodes : List Node) (edges : List Edge)
    (fuel : Nat) (nodeId : String) (s : SSt) :
    schedExecGraph ex nodes edges (fuel + 1) nodeId s =
      if s.count > 10000 then .error (.iterationLimit, s)
      else
        let s1 : SSt :=
          { visited := addVisited s.visited nodeId, count := s.count + 1,
            stepResults := s.stepResults }
        match findNode nodes nodeId with
        | none => .ok s1
        | some node =>
          let isCond := node.type == some "conditional"
          let step1 : Except (Err × SSt) (Option Bool × SSt) :=
            if isCond then
              if !ex.windowManager then .error (.windowManagerRequired, s1)
              else if !ex.browserWindow then .error (.browserWindowRequired, s1)
              else
                match ex.evaluateConditional node with
                | .error m => .error (.external m, s1)
                | .ok b => .ok (some b, pushResult s1 true)
            else
              match node.data.step with
              | some st =>
                match ex.executeStep st with
                | .error m => .error (.external m, pushResult s1 false)
                | .ok _ => .ok (none, pushResult s1 true)
              | none => .ok (none, s1)
          match step1 with
          | .error es => .error es
          | .ok (condRes, s2) =>
            schedExecList ex nodes edges fuel (nextNodeIds edges nodeId isCond condRes) s2 := rfl

/-! ## Counter monotonicity and fuel adequacy -/

theorem pushEvent_count (s : St) (nodeId : String) (st : NodeStatus) :
    (pushEvent s nodeId st).count = s.count := rfl

theorem evalNode_ne_outOfFuel (ex : Executor) (node : Node) :
    evalNode ex node ≠ .error .outOfFuel := by
  unfold evalNode
  cases node.data.step with
  | none => simp
  | some st =>
    dsimp only
    split
    · split
      · cases ex.evalBrowserConditional st <;> simp
      · simp
    · split
      · split
        · cases ex.evalVariableConditional st <;> simp
        · simp
      · cases ex.executeStep st <;> simp

theorem exec_count_mono (ex : Executor) (nodes : List Node) (edges : List Edge) :
    ∀ fuel : Nat,
      (∀ nodeId s, s.count ≤ resCount (executeGraph ex nodes edges fuel nodeId s)) ∧
      (∀ ids s, s.count ≤ resCount (execList ex nodes edges fuel ids s)) := by
  intro fuel
  induction fuel with
  | zero =>
    constructor
    · intro nodeId s
      rw [executeGraph_zero]
      exact le_refl _
    · intro ids s
      cases ids with
      | nil => exact le_refl _
      | cons n ns =>
        rw [execList_cons, executeGraph_zero]
        exact le_refl _
  | succ fuel ih =>
    have hG : ∀ nodeId s, s.count ≤ resCount (executeGraph ex nodes edges (fuel + 1) nodeId s) := by
      intro nodeId s
      rw [executeGraph_succ]
      by_cases hc : s.count > 10000
      · simp only [hc, if_true]
        exact le_refl _
      · simp only [hc, if_false]
        cases hfind : findNode nodes nodeId with
        | none => exact Nat.le_succ _
        | some node =>
          dsimp only
          cases heval : evalNode ex node with
          | error e => exact Nat.le_succ _
          | ok condRes =>
            dsimp only
            have hrec := ih.2 (nextNodeIds edges nodeId (isConditionalNode node) condRes)
              (pushEvent (pushEvent
                { visited := addVisited s.visited nodeId, count := s.count + 1,
                  events := s.events } nodeId .running) nodeId .success)
            cases hrun : execList ex nodes edges fuel
                (nextNodeIds edges nodeId (isConditionalNode node) condRes)
                (pushEvent (pushEvent
                  { visited := addVisited s.visited nodeId, count := s.count + 1,
                    events := s.events } nodeId .running) nodeId .success) with
            | ok s4 =>
              rw [hrun] at hrec
              exact le_trans (Nat.le_succ _) hrec
            | error es =>
              obtain ⟨e, s4⟩ := es
              rw [hrun] at hrec
              exact le_trans (Nat.le_succ _) hrec
    refine ⟨hG, ?_⟩
    intro ids
    induction ids with
    | nil =>
      intro s
      exact le_refl _
    | cons n ns ihns =>
      intro s
      rw [execList_cons]
      cases hr : executeGraph ex nodes edges (fuel + 1) n s with
      | error es =>
        have := hG n s
        rw [hr] at this
        exact this
      | ok s2 =>
        have h1 := hG n s
        rw [hr] at h1
        exact le_trans h1 (ihns s2)

theorem fuel_adequate (ex : Executor) (nodes : List Node) (edges : List Edge) :
    ∀ fuel : Nat,
      (∀ nodeId s, 1 ≤ fuel → 10002 ≤ fuel + s.count →
        resErr (executeGraph ex nodes edges fuel nodeId s) ≠ some .outOfFuel) ∧
      (∀ ids s, 1 ≤ fuel → 10002 ≤ fuel + s.count →
        resErr (execList ex nodes edges fuel ids s) ≠ some .outOfFuel) := by
  intro fuel
  induction fuel with
  | zero =>
    constructor
    · intro nodeId s h1 _
      exact absurd h1 (by omega)
    · intro ids s h1 _
      exact absurd h1 (by omega)
  | succ fuel ih =>
    have hG : ∀ nodeId s, 10002 ≤ fuel + 1 + s.count →
        resErr (executeGraph ex nodes edges (fuel + 1) nodeId s) ≠ some .outOfFuel := by
      intro nodeId s hcount
      rw [executeGraph_succ]
      by_cases hc : s.count > 10000
      · simp only [hc, if_true]
        simp [resErr]
      · simp only [hc, if_false]
        cases hfind : findNode nodes nodeId with
        | none => simp [resErr]
        | some node =>
          dsimp only
          cases heval : evalNode ex node with
          | error e =>
            have hne : e ≠ .outOfFuel := by
              intro hcontr
              exact evalNode_ne_outOfFuel ex node (hcontr ▸ heval)
            simp [resErr, hne]
          | ok condRes =>
            dsimp only
            have hrec := ih.2 (nextNodeIds edges nodeId (isConditionalNode node) condRes)
              (pushEvent (pushEvent
                { visited := addVisited s.visited nodeId, count := s.count + 1,
                  events := s.events } nodeId .running) nodeId .success)
              (by omega) (by simp only [pushEvent_count]; omega)
            cases hrun : execList ex nodes edges fuel
                (nextNodeIds edges nodeId (isConditionalNode node) condRes)
                (pushEvent (pushEvent
                  { visited := addVisited s.visited nodeId, count := s.count + 1,
                    events := s.events } nodeId .running) nodeId .success) with
            | ok s4 => simp [resErr]
            | error es =>
              obtain ⟨e, s4⟩ := es
              rw [hrun] at hrec
              simp only [resErr] at hrec ⊢
              simpa using hrec
    refine ⟨fun nodeId s _ h => hG nodeId s h, ?_⟩
    intro ids
    induction ids with
    | nil =>
      intro s _ _
      simp [execList_nil, resErr]
    | cons n ns ihns =>
      intro s h1 hcount
      rw [execList_cons]
      cases hr : executeGraph ex nodes edges (fuel + 1) n s with
      | error es =>
        have := hG n s hcount
        rw [hr] at this
        exact this
      | ok s2 =>
        have hmono := (exec_count_mono ex nodes edges (fuel + 1)).1 n s
        rw [hr] at hmono
        exact ihns s2 h1 (by simp only [resCount] at hmono; omega)

/-! ## The A→B→A cycle reaches the iteration cap under the scheduler engine -/

theorem cyc_loop :
    ∀ fuel : Nat, ∀ s : SSt, 1 ≤ fuel → 10002 ≤ fuel + s.count →
      (∃ s', schedExecGraph trivialSchedExec cycNodes cycEdges fuel "A" s =
        .error (.iterationLimit, s')) ∧
      (∃ s', schedExecGraph trivialSchedExec cycNodes cycEdges fuel "B" s =
        .error (.iterationLimit, s')) := by
  intro fuel
  induction fuel with
  | zero =>
    intro s h1 _
    exact absurd h1 (by omega)
  | succ fuel ih =>
    intro s _ hcount
    by_cases hc : s.count > 10000
    · constructor
      · exact ⟨s, by rw [schedExecGraph_succ, if_pos hc]⟩
      · exact ⟨s, by rw [schedExecGraph_succ, if_pos hc]⟩
    · have h1f : 1 ≤ fuel := by omega
      constructor
      · obtain ⟨s', hB⟩ :=
          (ih (SSt.mk (addVisited s.visited "A") (s.count + 1) s.stepResults) h1f
            (by show 10002 ≤ fuel + (s.count + 1); omega)).2
        refine ⟨s', ?_⟩
        rw [schedExecGraph_succ, if_neg hc]
        show schedExecList trivialSchedExec cycNodes cycEdges fuel ["B"]
          (SSt.mk (addVisited s.visited "A") (s.count + 1) s.stepResults) =
            .error (.iterationLimit, s')
        rw [schedExecList_cons, hB]
      · obtain ⟨s', hA⟩ :=
          (ih (SSt.mk (addVisited s.visited "B") (s.count + 1) s.stepResults) h1f
            (by show 10002 ≤ fuel + (s.count + 1); omega)).1
        refine ⟨s', ?_⟩
        rw [schedExecGraph_succ, if_neg hc]
        show schedExecList trivialSchedExec cycNodes cycEdges fuel ["A"]
          (SSt.mk (addVisited s.visited "B") (s.count + 1) s.stepResults) =
            .error (.iterationLimit, s')
        rw [schedExecList_cons, hA]

theorem cyc_run_hits_cap :
    sResErr (executeWorkflowGraph trivialSchedExec cycNodes cycEdges) =
      some .iterationLimit := by
  obtain ⟨s', hA⟩ := (cyc_loop canonicalFuel {} (by norm_num [canonicalFuel])
    (by norm_num [canonicalFuel])).1
  show sResErr (schedExecList trivialSchedExec cycNodes cycEdges
    canonicalFuel ["A", "B"] {}) = some .iterationLimit
  rw [schedExecList_cons, hA]
  rfl

theorem nextNodeIds_eq_spec (edges : List Edge) (nodeId : String) (isCond : Bool)
    (condRes : Option Bool) :
    nextNodeIds edges nodeId isCond condRes = specNextNodes edges nodeId isCond condRes := by
  cases isCond with
  | false => cases condRes <;> rfl
  | true =>
    cases condRes with
    | none => rfl
    | some r => cases r <;> rfl

theorem findStartNodes_error (nodes : List Node) (edges : List Edge) (e : Err)
    (h : findStartNodes nodes edges = .error e) : e = .noStartNodes := by
  unfold findStartNodes at h
  by_cases hemp : ((nodes.filter fun n =>
      indegreeFrom (edges.filter (validEdge (nodes.map (·.id)))) n.id == 0).isEmpty) = true
  · simp only [hemp, if_true] at h
    exact (Except.error.injEq _ _).mp h.symm
  · simp only [hemp, if_false] at h
    cases h

/-- C1: for every graph run by the traversal engine, a conditional node with a
true `conditionResult` is followed only through `sourceHandle = "if"` edges
(`"else"` edges when false), a non-conditional node through all outgoing
edges, and the engine recurses into the selected next nodes sequentially in
edge-list order: the engine's selection equals the spec's selection, a
visited node with a defined evaluation continues exactly as the sequential
fold over that selection, and on the concrete if/else graph only the taken
branch's subtree runs. -/
theorem conditional_branch_selection :
    (∀ (edges : List Edge) (nodeId : String) (isCond : Bool) (condRes : Option Bool),
      nextNodeIds edges nodeId isCond condRes = specNextNodes edges nodeId isCond condRes) ∧
    (∀ (ex : Executor) (nodes : List Node) (edges : List Edge) (fuel : Nat)
        (nodeId : String) (s : St) (node : Node) (condRes : Option Bool),
      s.count ≤ 10000 → findNode nodes nodeId = some node →
      evalNode ex node = .ok condRes →
      executeGraph ex nodes edges (fuel + 1) nodeId s =
        match
          execList ex nodes edges fuel
            (specNextNodes edges nodeId (isConditionalNode node) condRes)
            (pushEvent (pushEvent (St.mk (addVisited s.visited nodeId) (s.count + 1) s.events)
              nodeId .running) nodeId .success) with
        | .ok s4 => .ok s4
        | .error (e, s4) => .error (e, pushEvent s4 nodeId .error)) ∧
    runTraversal trivialExec condNodes condEdges =
      .ok (St.mk ["C", "X"] 2
        [("C", .running), ("C", .success), ("X", .running), ("X", .success)]) ∧
    runTraversal falseCondExec condNodes condEdges =
      .ok (St.mk ["C", "Y"] 2
        [("C", .running), ("C", .success), ("Y", .running), ("Y", .success)]) := by
  refine ⟨nextNodeIds_eq_spec, ?_, by decide, by decide⟩
  intro ex nodes edges fuel nodeId s node condRes hc hfind heval
  rw [executeGraph_succ, if_neg (by omega)]
  rw [hfind]
  dsimp only
  rw [heval]
  dsimp only
  rw [nextNodeIds_eq_spec]

/-- Witness for C1 at the concrete conditional node `C` with a true result. -/
theorem conditional_branch_selection_witness :
    executeGraph trivialExec condNodes condEdges (0 + 1) "C"
        (St.mk [] 0 []) =
      match
        execList trivialExec condNodes condEdges 0
          (specNextNodes condEdges "C" (isConditionalNode condNodeC) (some true))
          (pushEvent (pushEvent (St.mk (addVisited [] "C") (0 + 1) [])
            "C" .running) "C" .success) with
      | .ok s4 => .ok s4
      | .error (e, s4) => .error (e, pushEvent s4 "C" .error) :=
  conditional_branch_selection.2.1 trivialExec condNodes condEdges 0 "C"
    (St.mk [] 0 []) condNodeC (some true) (by decide) (by decide) (by decide)

/-- C2: a run cannot diverge: the embedded recursion never exhausts its fuel
at the canonical depth, every node visit of a state within the cap increments
the shared iteration counter, any visit beginning with the counter above
10 000 fails with the iteration-limit error, and the concrete cycle
`A → B → A` (run by the scheduler engine, whose fallback start selection
admits it) terminates with the iteration-limit error. -/
theorem iteration_cap_terminates :
    (∀ (ex : Executor) (nodes : List Node) (edges : List Edge),
      resErr (runTraversal ex nodes edges) ≠ some .outOfFuel) ∧
    (∀ (ex : Executor) (nodes : List Node) (edges : List Edge) (fuel : Nat)
        (nodeId : String) (s : St), 1 ≤ fuel → 10000 < s.count →
      executeGraph ex nodes edges fuel nodeId s = .error (.iterationLimit, s)) ∧
    (∀ (ex : Executor) (nodes : List Node) (edges : List Edge) (fuel : Nat)
        (nodeId : String) (s : St), s.count ≤ 10000 →
      s.count + 1 ≤ resCount (executeGraph ex nodes edges (fuel + 1) nodeId s)) ∧
    sResErr (executeWorkflowGraph trivialSchedExec cycNodes cycEdges) =
      some .iterationLimit := by
  refine ⟨?_, ?_, ?_, cyc_run_hits_cap⟩
  · intro ex nodes edges
    unfold runTraversal
    cases hfs : findStartNodes nodes edges with
    | error e =>
      have := findStartNodes_error nodes edges e hfs
      subst this
      simp [resErr]
    | ok starts =>
      exact (fuel_adequate ex nodes edges canonicalFuel).2 (starts.map (·.id)) {}
        (by norm_num [canonicalFuel]) (by norm_num [canonicalFuel])
  · intro ex nodes edges fuel nodeId s h1 hcount
    cases fuel with
    | zero => exact absurd h1 (by omega)
    | succ fuel => rw [executeGraph_succ, if_pos (by omega)]
  · intro ex nodes edges fuel nodeId s hc
    rw [executeGraph_succ, if_neg (by omega)]
    cases hfind : findNode nodes nodeId with
    | none => exact le_refl _
    | some node =>
      dsimp only
      cases heval : evalNode ex node with
      | error e => exact le_refl _
      | ok condRes =>
        dsimp only
        have hrec := (exec_count_mono ex nodes edges fuel).2
          (nextNodeIds edges nodeId (isConditionalNode node) condRes)
          (pushEvent (pushEvent
            (St.mk (addVisited s.visited nodeId) (s.count + 1) s.events)
            nodeId .running) nodeId .success)
        cases hrun : execList ex nodes edges fuel
            (nextNodeIds edges nodeId (isConditionalNode node) condRes)
            (pushEvent (pushEvent
              (St.mk (addVisited s.visited nodeId) (s.count + 1) s.events)
              nodeId .running) nodeId .success) with
        | ok s4 =>
          rw [hrun] at hrec
          exact hrec
        | error es =>
          obtain ⟨e, s4⟩ := es
          rw [hrun] at hrec
          exact hrec

/-- Witness for C2: a visit starting above the cap fails with the
iteration-limit error, and a visit within the cap increments the counter. -/
theorem iteration_cap_terminates_witness :
    executeGraph trivialExec [] [] 1 "A" (St.mk [] 10001 []) =
      .error (.iterationLimit, St.mk [] 10001 []) ∧
    1 + 1 ≤ resCount (executeGraph trivialExec [] [] (0 + 1) "A" (St.mk [] 1 [])) :=
  ⟨iteration_cap_terminates.2.1 trivialExec [] [] 1 "A" (St.mk [] 10001 [])
      (by norm_num) (by norm_num),
    iteration_cap_terminates.2.2.1 trivialExec [] [] 0 "A" (St.mk [] 1 []) (by norm_num)⟩

/-! ## Start-node resolution -/

theorem id_mem_ne_empty (nodes : List Node) (hids : ∀ n ∈ nodes, n.id ≠ "")
    (x : String) (hx : ((nodes.map (·.id)).contains x) = true) : x ≠ "" := by
  have hmem : x ∈ nodes.map (·.id) := by simpa using hx
  obtain ⟨n, hn, h⟩ := List.mem_map.mp hmem
  exact h ▸ hids n hn

theorem validIndegree_eq (nodes : List Node) (edges : List Edge)
    (hids : ∀ n ∈ nodes, n.id ≠ "") (id : String) :
    indegreeFrom (edges.filter (validEdge (nodes.map (·.id)))) id =
      specValidIndegree nodes edges id := by
  unfold indegreeFrom specValidIndegree
  rw [List.filter_filter]
  congr 1
  apply List.filter_congr
  intro e _
  unfold validEdge
  cases hcs : (nodes.map (·.id)).contains e.source with
  | false => simp [hcs]
  | true =>
    cases hct : (nodes.map (·.id)).contains e.target with
    | false => simp [hcs, hct]
    | true =>
      have h1 : (e.source != "") = true := by
        simp [bne_iff_ne, id_mem_ne_empty nodes hids e.source hcs]
      have h2 : (e.target != "") = true := by
        simp [bne_iff_ne, id_mem_ne_empty nodes hids e.target hct]
      simp [hcs, hct, h1, h2]

theorem schedIndegree_eq (nodes : List Node) (edges : List Edge)
    (hids : ∀ n ∈ nodes, n.id ≠ "") (id : String) :
    schedIndegreeOf nodes edges id = specTargetIndegree nodes edges id := by
  unfold schedIndegreeOf specTargetIndegree
  congr 1
  apply List.filter_congr
  intro e _
  cases hct : (nodes.map (·.id)).contains e.target with
  | false => simp [hct]
  | true =>
    have h2 : (e.target != "") = true := by
      simp [bne_iff_ne, id_mem_ne_empty nodes hids e.target hct]
    simp [hct, h2]

/-- C3 as stated is false: the claim universally quantifies over graphs given
to "the traversal engine", but `findStartNodes` — the start-node resolution of
the graph executor engine — ignores `isStart` entirely: with `B` marked
`isStart` and edge `A → B`, the selected start set is `[A]`, not `[B]`. -/
theorem isStart_ignored_by_findStartNodes :
    findStartNodes startNodes3 startEdges3 =
      .ok [Node.mk "A" none (NodeData.mk none none)] ∧
    (startNodes3.filter fun n => n.data.isStart == some true) =
      [Node.mk "B" none (NodeData.mk none (some true))] := by decide

/-- C3 (amended): only the scheduler's engine honors `isStart` — there, the
explicitly marked nodes win outright (whatever their indegree); otherwise it
uses the zero-indegree nodes with indegree counted from edges whose target
names an existing node (an edge with a nonexistent source still counts).
The graph executor engine instead always selects the zero-indegree nodes
computed from valid edges, failing when that set is empty, regardless of
`isStart`. (Node ids are assumed nonempty; the engines treat `""` as falsy.) -/
theorem start_node_resolution :
    ∀ (nodes : List Node) (edges : List Edge), (∀ n ∈ nodes, n.id ≠ "") →
      (schedExplicitStarts nodes ≠ [] →
        schedStartNodes nodes edges = schedExplicitStarts nodes) ∧
      (schedExplicitStarts nodes = [] →
        schedStartNodes nodes edges =
          nodes.filter fun n => specTargetIndegree nodes edges n.id == 0) ∧
      (findStartNodes nodes edges =
        if (specZeroValidStarts nodes edges).isEmpty then .error .noStartNodes
        else .ok (specZeroValidStarts nodes edges)) := by
  intro nodes edges hids
  refine ⟨?_, ?_, ?_⟩
  · intro hne
    unfold schedStartNodes
    rw [if_pos (by simpa [List.length_pos] using hne)]
  · intro hemp
    unfold schedStartNodes
    rw [if_neg (by simp [hemp])]
    apply List.filter_congr
    intro n _
    rw [schedIndegree_eq nodes edges hids n.id]
  · have hfilter : (nodes.filter fun n =>
        indegreeFrom (edges.filter (validEdge (nodes.map (·.id)))) n.id == 0) =
        nodes.filter fun n => specValidIndegree nodes edges n.id == 0 := by
      apply List.filter_congr
      intro n _
      rw [validIndegree_eq nodes edges hids n.id]
    unfold findStartNodes specZeroValidStarts
    dsimp only
    rw [hfilter]

/-- Witness for C3 at the concrete `isStart` graph: the scheduler's selection
is exactly the marked node, and the graph executor's is the zero-indegree
node. -/
theorem start_node_resolution_witness :
    schedStartNodes startNodes3 startEdges3 = schedExplicitStarts startNodes3 ∧
    findStartNodes startNodes3 startEdges3 =
      (if (specZeroValidStarts startNodes3 startEdges3).isEmpty then .error .noStartNodes
       else .ok (specZeroValidStarts startNodes3 startEdges3)) :=
  ⟨(start_node_resolution startNodes3 startEdges3 (by decide)).1 (by decide),
   (start_node_resolution startNodes3 startEdges3 (by decide)).2.2⟩

theorem schedExec_no_noStart (ex : SchedulerExec) (nodes : List Node) (edges : List Edge) :
    ∀ fuel : Nat,
      (∀ nodeId s, sResErr (schedExecGraph ex nodes edges fuel nodeId s) ≠
        some .noStartNodes) ∧
      (∀ ids s, sResErr (schedExecList ex nodes edges fuel ids s) ≠
        some .noStartNodes) := by
  intro fuel
  induction fuel with
  | zero =>
    constructor
    · intro nodeId s
      show sResErr (.error (.outOfFuel, s)) ≠ some .noStartNodes
      simp [sResErr]
    · intro ids s
      cases ids with
      | nil =>
        show sResErr (.ok s) ≠ some .noStartNodes
        simp [sResErr]
      | cons n ns =>
        rw [schedExecList_cons]
        show sResErr (.error (.outOfFuel, s)) ≠ some .noStartNodes
        simp [sResErr]
  | succ fuel ih =>
    have hG : ∀ nodeId s, sResErr (schedExecGraph ex nodes edges (fuel + 1) nodeId s) ≠
        some .noStartNodes := by
      intro nodeId s
      rw [schedExecGraph_succ]
      by_cases hc : s.count > 10000
      · simp [hc, sResErr]
      · simp only [hc, if_false]
        cases hfind : findNode nodes nodeId with
        | none => simp [sResErr]
        | some node =>
          dsimp only
          cases hn : node.type == some "conditional" with
          | true =>
            simp only [hn]
            rw [if_pos trivial]
            cases hw : ex.windowManager with
            | false =>
              rw [if_pos (by decide)]
              simp [sResErr]
            | true =>
              rw [if_neg (by decide)]
              cases hb : ex.browserWindow with
              | false =>
                rw [if_pos (by decide)]
                simp [sResErr]
              | true =>
                rw [if_neg (by decide)]
                cases heval : ex.evaluateConditional node with
                | error m => simp [sResErr]
                | ok b => exact ih.2 _ _
          | false =>
            rw [if_neg (by simp [hn])]
            cases hst : node.data.step with
            | none => exact ih.2 _ _
            | some st =>
              dsimp only
              cases hex : ex.executeStep st with
              | error m => simp [sResErr]
              | ok u => exact ih.2 _ _
    refine ⟨hG, ?_⟩
    intro ids
    induction ids with
    | nil =>
      intro s
      show sResErr (.ok s) ≠ some .noStartNodes
      simp [sResErr]
    | cons n ns ihns =>
      intro s
      rw [schedExecList_cons]
      cases hr : schedExecGraph ex nodes edges (fuel + 1) n s with
      | error es =>
        have := hG n s
        rw [hr] at this
        exact this
      | ok s2 => exact ihns s2

theorem schedFallbackStarts_ne_nil (nodes : List Node) (edges : List Edge)
    (hne : nodes ≠ []) : schedFallbackStarts nodes edges ≠ [] := by
  obtain ⟨m, hm⟩ : ∃ m, (nodes.map fun n => schedIndegreeOf nodes edges n.id).min? = some m := by
    cases hmin : (nodes.map fun n => schedIndegreeOf nodes edges n.id).min? with
    | some m => exact ⟨m, rfl⟩
    | none =>
      exfalso
      have hmapnil := List.min?_eq_none_iff.mp hmin
      exact hne (List.map_eq_nil_iff.mp hmapnil)
  have hmem := List.min?_mem (fun x y => min_choice x y) hm
  obtain ⟨n0, hn0, hval⟩ := List.mem_map.mp hmem
  have hmin0 : schedMinIndegree nodes edges = m := by
    unfold schedMinIndegree
    rw [hm]
    rfl
  have hn0mem : n0 ∈ schedFallbackStarts nodes edges := by
    unfold schedFallbackStarts
    refine List.mem_filter.mpr ⟨hn0, ?_⟩
    simp [hmin0, hval]
  exact List.ne_nil_of_mem hn0mem

/-- C4 as stated is false: the graph executor's start-node resolution has no
minimal-indegree fallback — on the two-node cycle (no `isStart`, no
zero-indegree node) the run fails at once with the no-start-node error
instead of falling back. -/
theorem no_fallback_in_graph_executor :
    runTraversal trivialExec cycNodes cycEdges = .error (.noStartNodes, St.mk [] 0 []) ∧
    schedExplicitStarts cycNodes = [] ∧
    (cycNodes.filter fun n => schedIndegreeOf cycNodes cycEdges n.id == 0) = [] := by
  decide

/-- C4 (amended): the minimal-indegree fallback exists only in the scheduler's
traversal engine: there, when no node is marked `isStart` and none has zero
indegree, the run proceeds from exactly the nodes of globally minimal
indegree (a nonempty set whenever the node list is nonempty), and the
scheduler engine never fails with the no-start-node error at all; the graph
executor engine instead fails with the no-start-node error whenever the
zero-indegree set is empty. -/
theorem minimal_indegree_fallback :
    (∀ (ex : SchedulerExec) (nodes : List Node) (edges : List Edge),
      sResErr (executeWorkflowGraph ex nodes edges) ≠ some .noStartNodes) ∧
    (∀ (ex : SchedulerExec) (nodes : List Node) (edges : List Edge),
      nodes ≠ [] → schedStartNodes nodes edges = [] →
      schedFallbackStarts nodes edges ≠ [] ∧
      executeWorkflowGraph ex nodes edges =
        schedExecList ex nodes edges canonicalFuel
          ((schedFallbackStarts nodes edges).map (·.id)) (SSt.mk [] 0 [])) ∧
    (∀ (nodes : List Node) (edges : List Edge),
      (nodes.filter fun n =>
        indegreeFrom (edges.filter (validEdge (nodes.map (·.id)))) n.id == 0) = [] →
      findStartNodes nodes edges = .error .noStartNodes) := by
  refine ⟨?_, ?_, ?_⟩
  · intro ex nodes edges
    unfold executeWorkflowGraph
    by_cases hne : nodes.isEmpty
    · simp [hne, sResErr]
    · simp only [hne, if_false]
      by_cases hst : (schedStartNodes nodes edges).isEmpty
      · simp only [hst, if_true]
        exact (schedExec_no_noStart ex nodes edges canonicalFuel).2 _ _
      · simp only [hst, if_false]
        exact (schedExec_no_noStart ex nodes edges canonicalFuel).2 _ _
  · intro ex nodes edges hne hst
    refine ⟨schedFallbackStarts_ne_nil nodes edges hne, ?_⟩
    unfold executeWorkflowGraph
    rw [if_neg (by simp [hne]), if_pos (by simp [hst])]
  · intro nodes edges hemp
    unfold findStartNodes
    dsimp only
    rw [hemp]
    rfl

/-- Witness for C4 on the concrete cycle: the scheduler run proceeds from the
fallback set and the graph executor fails. -/
theorem minimal_indegree_fallback_witness :
    executeWorkflowGraph trivialSchedExec cycNodes cycEdges =
      schedExecList trivialSchedExec cycNodes cycEdges canonicalFuel
        ((schedFallbackStarts cycNodes cycEdges).map (·.id)) (SSt.mk [] 0 []) ∧
    findStartNodes cycNodes cycEdges = .error .noStartNodes :=
  ⟨((minimal_indegree_fallback.2.1 trivialSchedExec cycNodes cycEdges (by decide)
      (by decide))).2,
   minimal_indegree_fallback.2.2 cycNodes cycEdges (by decide)⟩

/-! ## Headless executor lifecycle -/

/-- C5 as stated is false: on a headless run whose step throws, `close()` is
invoked twice — once by the `finally` of `executeBrowserGraph` and once more
by the cleanup `catch` of `executeAutomationGraph` when the error rethrows. -/
theorem double_close_on_step_failure :
    (executeAutomationGraph failingStepExec navNodes [] true true).1.closeCalls = 2 ∧
    (executeAutomationGraph failingStepExec navNodes [] true true).2 =
      .error (.external "boom") := by decide

/-- C5 (amended): on every headless run that instantiates the executor,
`close()` is invoked at least once on every path — once on the success path,
once when `launch()` throws, and twice when the run throws (the second
invocation is a no-op, since the browser handle is already null) — the
underlying browser is actually closed at most once (exactly once whenever
`launch()` succeeded), and no path leaks a live browser handle. -/
theorem headless_close_on_every_path :
    ∀ (ex : Executor) (nodes : List Node) (edges : List Edge) (launchOk : Bool),
      nodes ≠ [] → hasBrowserSteps nodes = true →
      1 ≤ (executeAutomationGraph ex nodes edges true launchOk).1.closeCalls ∧
      (executeAutomationGraph ex nodes edges true launchOk).1.closeCalls ≤ 2 ∧
      (executeAutomationGraph ex nodes edges true launchOk).1.effectiveCloses ≤ 1 ∧
      (launchOk = true →
        (executeAutomationGraph ex nodes edges true launchOk).1.effectiveCloses = 1) ∧
      ((executeAutomationGraph ex nodes edges true launchOk).2 = .ok () →
        (executeAutomationGraph ex nodes edges true launchOk).1.closeCalls = 1) ∧
      (launchOk = false →
        (executeAutomationGraph ex nodes edges true launchOk).1.closeCalls = 1) ∧
      ((executeAutomationGraph ex nodes edges true launchOk).1.he.map HE.browser =
        some none) := by
  intro ex nodes edges launchOk hne hbs
  have hne' : nodes.isEmpty = false := by
    cases nodes with
    | nil => exact absurd rfl hne
    | cons a l => rfl
  unfold executeAutomationGraph
  rw [hne']
  rw [hbs]
  cases launchOk with
  | false =>
    simp [HERun.doClose, HE.fresh, HE.close, HE.launched, executeBrowserGraphHE]
  | true =>
    cases hr : runTraversal ex nodes edges with
    | ok s =>
      simp [executeBrowserGraphHE, hr, HERun.doClose, HE.launched, HE.close]
    | error es =>
      obtain ⟨e, st⟩ := es
      simp [executeBrowserGraphHE, hr, HERun.doClose, HE.launched, HE.close]

/-- Witness for C5 on the concrete failing headless run: exactly one
effective close and at most two invocations. -/
theorem headless_close_on_every_path_witness :
    (executeAutomationGraph failingStepExec navNodes [] true true).1.effectiveCloses = 1 ∧
    (executeAutomationGraph failingStepExec navNodes [] true true).1.closeCalls ≤ 2 :=
  ⟨(headless_close_on_every_path failingStepExec navNodes [] true (by decide)
      (by decide)).2.2.2.1 rfl,
   (headless_close_on_every_path failingStepExec navNodes [] true (by decide)
      (by decide)).2.1⟩

/-- C10: `HeadlessExecutor.close` is idempotent and total — calling it before
`launch()` or a second time is a field-level no-op, and after any `close()`
the browser handle is null (`close ∘ close = close`). -/
theorem close_idempotent :
    ∀ h : HE, (h.close).close = h.close ∧ HE.fresh.close = HE.fresh ∧
      HE.launched.close = HE.fresh ∧ (h.close).browser = none := by
  intro h
  refine ⟨?_, by decide, by decide, ?_⟩
  · unfold HE.close
    cases hb : h.browser with
    | none => simp [hb]
    | some u => simp
  · unfold HE.close
    cases hb : h.browser with
    | none => simp [hb]
    | some u => simp [hb]

/-! ## Conditional value matching -/

/-- C6 as stated is false: with `parseAsNumber` set, `contains` also sits
behind the numeric-parse guard — `"abc"` contains `"b"`, yet the comparison
yields false because `"abc"` fails to parse as a number. -/
theorem contains_gated_by_parse :
    valueMatches true "contains" "abc" "b" = false ∧ strIncludes "abc" "b" = true := by
  decide

/-- C6 (amended): with `parseAsNumber` set, a numeric-parse failure of either
side (after stripping non-numeric characters) forces the result to false for
every operator, including `contains`; when both sides parse, `contains`
compares by string containment on the transformed value while
`greaterThan`/`lessThan`/`equals` compare the parsed numbers. -/
theorem parse_as_number_gating :
    ∀ (t e : String),
      (∀ op : String,
        (jsParseFloat (stripNonNumeric t) = none ∨
          jsParseFloat (stripNonNumeric e) = none) →
        valueMatches true op t e = false) ∧
      (∀ a b : ℚ, jsParseFloat (stripNonNumeric t) = some a →
        jsParseFloat (stripNonNumeric e) = some b →
        valueMatches true "contains" t e = strIncludes t e ∧
        valueMatches true "greaterThan" t e = decide (a > b) ∧
        valueMatches true "lessThan" t e = decide (a < b) ∧
        valueMatches true "equals" t e = (a == b)) := by
  intro t e
  constructor
  · intro op hnone
    unfold valueMatches
    rw [if_pos rfl]
    rcases hnone with h | h
    · rw [h]
    · cases hx : jsParseFloat (stripNonNumeric t) with
      | none => rfl
      | some a => rw [h]
  · intro a b ha hb
    unfold valueMatches
    rw [if_pos rfl, ha, hb]
    exact ⟨rfl, rfl, rfl, rfl⟩

/-- Witness for C6: a numeric comparison when both sides parse, and the
parse-failure gate at a non-numeric left-hand side. -/
theorem parse_as_number_gating_witness :
    valueMatches true "greaterThan" "12" "3" = decide ((12 : ℚ) > (3 : ℚ)) ∧
    valueMatches true "contains" "x" "y" = false :=
  ⟨((parse_as_number_gating "12" "3").2 12 3 (by decide) (by decide)).2.1,
   (parse_as_number_gating "x" "y").1 "contains" (Or.inl (by decide))⟩

/-! ## Scheduler task management -/

theorem mapGet_mapSet_self (m : List (String × STask)) (k : String) (v : STask) :
    mapGet (mapSet m k v) k = some v := by
  induction m with
  | nil => simp [mapGet, mapSet, List.find?]
  | cons p ps ih =>
    unfold mapSet
    by_cases hp : (p.1 == k) = true
    · rw [if_pos (by simp [List.any_cons, hp])]
      simp [mapGet, List.find?, hp]
    · by_cases hany : (ps.any fun q => q.1 == k) = true
      · rw [if_pos (by simp [List.any_cons, hany])]
        have ih' := ih
        unfold mapSet at ih'
        rw [if_pos hany] at ih'
        simp only [mapGet, List.map_cons, List.find?, hp] at ih' ⊢
        simpa [hp] using ih'
      · rw [if_neg (by simp [List.any_cons, hp, hany])]
        have ih' := ih
        unfold mapSet at ih'
        rw [if_neg hany] at ih'
        simp only [mapGet, List.cons_append, List.find?, hp] at ih' ⊢
        simpa [hp] using ih'

theorem unschedule_firings (s : Sched) (sid : String) :
    (unscheduleAutomation s sid).1.firings = s.firings := by
  unfold unscheduleAutomation
  cases mapGet s.tasks sid <;> rfl

/-- C7 as stated is false: installing a `once` schedule whose datetime is in
the past fires the workflow immediately and registers the task, but the task
is never removed from the active task set afterwards — the installed handle
is a no-op timeout, so even firing it leaves the registration in place. -/
theorem past_once_never_removed :
    ((scheduleAutomation cronAlwaysValid 10 {} onceAuto "s1").1.firings = ["a1"]) ∧
    ((mapGet (fireTimer (scheduleAutomation cronAlwaysValid 10 {} onceAuto "s1").1
        "s1").tasks "s1").isSome = true) := by decide

/-- C7 (amended): installing a `once` schedule whose datetime is already past
returns true, fires the workflow immediately exactly once, and registers a
task holding only a no-op timeout under the schedule id; firing that timer
later is a no-op, so the task stays registered until explicitly
unscheduled. -/
theorem past_once_fires_and_stays :
    ∀ (cronValid : String → Bool) (now : Int) (s : Sched) (a : Automation)
        (scheduleId : String) (dt : Int),
      a.schedule = some (.once dt) → dt ≤ now →
      (scheduleAutomation cronValid now s a scheduleId).2 = true ∧
      (scheduleAutomation cronValid now s a scheduleId).1.firings =
        s.firings ++ [a.id] ∧
      mapGet (scheduleAutomation cronValid now s a scheduleId).1.tasks scheduleId =
        some (STask.mk scheduleId a.id (.once dt) none (some .noopTimeout)
          (a.enabled.getD true)) ∧
      fireTimer (scheduleAutomation cronValid now s a scheduleId).1 scheduleId =
        (scheduleAutomation cronValid now s a scheduleId).1 := by
  intro cronValid now s a sid dt hsch hpast
  have hres : scheduleAutomation cronValid now s a sid =
      (Sched.mk
        (mapSet (unscheduleAutomation s sid).1.tasks sid
          (STask.mk sid a.id (.once dt) none (some .noopTimeout) (a.enabled.getD true)))
        ((unscheduleAutomation s sid).1.firings ++ [a.id]), true) := by
    unfold scheduleAutomation
    rw [hsch]
    dsimp only
    unfold scheduleOnce
    rw [if_pos (by omega)]
    rfl
  refine ⟨by rw [hres], ?_, ?_, ?_⟩
  · rw [hres]
    dsimp only
    rw [unschedule_firings]
  · rw [hres]
    exact mapGet_mapSet_self _ _ _
  · rw [hres]
    unfold fireTimer
    rw [mapGet_mapSet_self]
    rfl

/-- Witness for C7 at the concrete past-`once` automation. -/
theorem past_once_fires_and_stays_witness :
    (scheduleAutomation cronAlwaysValid 10 {} onceAuto "s1").1.firings =
      ({} : Sched).firings ++ [onceAuto.id] ∧
    fireTimer (scheduleAutomation cronAlwaysValid 10 {} onceAuto "s1").1 "s1" =
      (scheduleAutomation cronAlwaysValid 10 {} onceAuto "s1").1 :=
  ⟨(past_once_fires_and_stays cronAlwaysValid 10 {} onceAuto "s1" 5 (by decide)
      (by decide)).2.1,
   (past_once_fires_and_stays cronAlwaysValid 10 {} onceAuto "s1" 5 (by decide)
      (by decide)).2.2.2⟩

/-- C8: the interval timer callback checks the captured automation object's
`enabled` field, while `toggleAutomation` flips only the task's copy — so
after toggling a schedule off, a firing still executes the workflow: the
task's flag reads false, yet the firing appends an execution. -/
theorem toggle_does_not_stop_firings :
    (mapGet toggledOffState.tasks "s2").map (·.enabled) = some false ∧
    (fireTimer toggledOffState "s2").firings = ["a2"] := by decide

/-! ## Invalid-edge handling -/

/-- C9 as stated is false: the graph executor traverses raw edges, so the
edge `A → Z` whose target `Z` names no node is followed — `Z` is added to the
visited set (and consumes an iteration) even though it is not a node; the run
still succeeds. -/
theorem dangling_target_becomes_visited :
    runTraversal trivialExec danglingNodes danglingEdges =
      .ok (St.mk ["A", "Z"] 2 [("A", .running), ("A", .success)]) ∧
    (danglingNodes.map (·.id)).contains "Z" = false := by decide

/-- C9 (amended): edges with an invalid endpoint are excluded from the
indegree computation used for start-node resolution, and an invalid edge
never fails the run; but traversal follows the raw edge list, so an edge from
an existing node to a nonexistent target is followed — visiting the missing
target adds its id to the visited set and increments the iteration counter,
and is otherwise a successful no-op (no events, no execution). -/
theorem invalid_edge_handling :
    (∀ (nodes : List Node) (edges : List Edge), (∀ n ∈ nodes, n.id ≠ "") →
      ∀ id, indegreeFrom (edges.filter (validEdge (nodes.map (·.id)))) id =
        specValidIndegree nodes edges id) ∧
    (∀ (ex : Executor) (nodes : List Node) (edges : List Edge) (fuel : Nat)
        (nodeId : String) (s : St), findNode nodes nodeId = none → s.count ≤ 10000 →
      executeGraph ex nodes edges (fuel + 1) nodeId s =
        .ok (St.mk (addVisited s.visited nodeId) (s.count + 1) s.events)) ∧
    runTraversal trivialExec danglingNodes danglingEdges =
      .ok (St.mk ["A", "Z"] 2 [("A", .running), ("A", .success)]) := by
  refine ⟨fun nodes edges h id => validIndegree_eq nodes edges h id, ?_, by decide⟩
  intro ex nodes edges fuel nodeId s hfind hc
  rw [executeGraph_succ, if_neg (by omega), hfind]

/-- Witness for C9: valid-edge indegree agreement on the dangling graph, and
the harmless visit of the missing target `Z`. -/
theorem invalid_edge_handling_witness :
    indegreeFrom (danglingEdges.filter (validEdge (danglingNodes.map (·.id)))) "A" =
      specValidIndegree danglingNodes danglingEdges "A" ∧
    executeGraph trivialExec danglingNodes danglingEdges (0 + 1) "Z"
        (St.mk ["A"] 1 [("A", .running), ("A", .success)]) =
      .ok (St.mk (addVisited ["A"] "Z") (1 + 1) [("A", .running), ("A", .success)]) :=
  ⟨invalid_edge_handling.1 danglingNodes danglingEdges (by decide) "A",
   invalid_edge_handling.2.1 trivialExec danglingNodes danglingEdges 0 "Z"
     (St.mk ["A"] 1 [("A", .running), ("A", .success)]) (by decide) (by decide)⟩

end Loopi
